import Mathlib

/-!
Verification of the stock-dashboard scraping pipeline (`src/app.py`).

The Python source is shallowly embedded: every function under verification is
translated into an executable Lean definition.  Network I/O is modelled by an
oracle `Net : String → Option HttpResp` (`none` models a timeout or a raised
exception), the pandas/BeautifulSoup document structure is modelled by explicit
record types holding the text the Python code actually inspects, Python `None`
is `Option.none`, Python string-falsiness (`if not s`) is `none`-or-empty, and
Python floats are modelled as exact fractions (all the numbers the code
manipulates are decimal literals scraped from pages, so exact fractions agree
with the source on every claim checked here; binary rounding of IEEE floats is
not modelled).  String primitives are re-implemented over `List Char` so that
all definitions evaluate inside the kernel.
-/

namespace StockApp

/-! ## String primitives (Python semantics, over `List Char`) -/

/-- Does `hay` start with `needle`?  (Python `str.startswith` on char lists.) -/
def startsL : List Char → List Char → Bool
  | [], _ => true
  | _ :: _, [] => false
  | a :: as, b :: bs => a == b && startsL as bs

/-- Substring containment, Python `needle in hay`. -/
def infixL (needle : List Char) : List Char → Bool
  | [] => needle.isEmpty
  | c :: rest => startsL needle (c :: rest) || infixL needle rest

/-- Python `needle in hay` on strings. -/
def containsSub (needle hay : String) : Bool :=
  infixL needle.data hay.data

/-- Python `str.lower` (ASCII, which is all the scraped phrases use). -/
def lowerS (s : String) : String :=
  String.mk (s.data.map Char.toLower)

/-- Python `str.endswith`. -/
def sEndsWith (s suffix : String) : Bool :=
  startsL suffix.data.reverse s.data.reverse

/-- Python slicing `s[:-n]`. -/
def sDropRight (s : String) (n : Nat) : String :=
  String.mk (s.data.take (s.data.length - n))

/-- Python `str.isdigit`: non-empty and all digits. -/
def isDigits (s : String) : Bool :=
  !s.data.isEmpty && s.data.all Char.isDigit

/-- Python `str.strip()`. -/
def trimS (s : String) : String :=
  String.mk ((s.data.dropWhile Char.isWhitespace).reverse.dropWhile Char.isWhitespace).reverse

/-- Python truthiness of an optional string: `None` and `""` are falsy. -/
def optFalsy : Option String → Bool
  | none => true
  | some s => s.data.isEmpty

/-! ## The identifier resolver (`get_screener_codes_for_ticker`, app.py:35-67)

`SCREENER_SPECIAL` and the CSV-derived `TICKER_TO_SCREENER_CODES` are passed in
as lookup oracles; the shipped `SCREENER_SPECIAL` table is empty and the CSV
mapping is built at startup, so both are parameters of the embedding.  A
`SCREENER_SPECIAL` entry may be a list or a single string (the Python code
checks `isinstance(special_codes, list)`). -/

inductive SpecialVal where
  | listVal (l : List (Option String))
  | strVal (s : String)

/-- Faithful embedding of `get_screener_codes_for_ticker` (app.py:35-67).
The input ticker is `Option String` (Python `None` possible); list elements are
`Option String` because the final fallback `return codes if codes else [None]`
and the `codes.append(symbol)` of a `None` symbol can put `None` in the list. -/
def get_screener_codes_for_ticker (special : String → Option SpecialVal)
    (csvMap : String → Option (List (Option String)))
    (symbol : Option String) : List (Option String) :=
  match (match symbol with | some s => special s | none => none) with
  | some (SpecialVal.listVal l) => l
  | some (SpecialVal.strVal s) => [some s]
  | none =>
    match (match symbol with | some s => csvMap s | none => none) with
    | some l => l
    | none =>
      let codes : List (Option String) :=
        match symbol with
        | some s =>
          if !s.data.isEmpty && sEndsWith s ".NS" then
            [some (sDropRight s 3)]
          else if !s.data.isEmpty && sEndsWith s ".BO" then
            if isDigits (sDropRight s 3) then
              [some (sDropRight s 3)]  -- BSE numeric code
            else
              [some (sDropRight s 3)]  -- BSE symbol
          else if !s.data.isEmpty && s.data.any (fun c => c == '.') then
            [some (String.mk (s.data.takeWhile (fun c => c != '.')))]
          else [some s]
        | none => [none]
      if codes.isEmpty then [none] else codes

/-- Embedding of `ticker_to_screener_code` (app.py:69-75): first candidate. -/
def ticker_to_screener_code (codes : List (Option String)) : Option String :=
  match codes with
  | [] => none
  | c :: _ => c

/-- Helper: with the override table and CSV mapping silent on `s`, the resolver
always produces a one-element list holding a non-null code. -/
theorem resolver_some_shape (special : String → Option SpecialVal)
    (csvMap : String → Option (List (Option String))) (s : String)
    (hsp : special s = none) (hcsv : csvMap s = none) :
    ∃ x, get_screener_codes_for_ticker special csvMap (some s) = [some x] := by
  simp only [get_screener_codes_for_ticker, hsp, hcsv]
  split_ifs <;> simp_all

/-- C4: for a ticker with no override entry and no CSV mapping, a `".NS"`
ticker resolves to the suffix-stripped symbol as sole (hence first) candidate;
in particular `resolve "TCS.NS" = ["TCS"]`, `resolve "500325.BO" = ["500325"]`
(all-digit remainder) and `resolve "RPOWER.BO" = ["RPOWER"]` (non-digit
remainder kept as a symbol, not stripped further). -/
theorem C4_resolver_suffix_stripping (special : String → Option SpecialVal)
    (csvMap : String → Option (List (Option String)))
    (h1 : special "TCS.NS" = none) (h2 : csvMap "TCS.NS" = none)
    (h3 : special "500325.BO" = none) (h4 : csvMap "500325.BO" = none)
    (h5 : special "RPOWER.BO" = none) (h6 : csvMap "RPOWER.BO" = none) :
    (∀ s, special s = none → csvMap s = none → s.data.isEmpty = false →
      sEndsWith s ".NS" = true →
      get_screener_codes_for_ticker special csvMap (some s) = [some (sDropRight s 3)]) ∧
    get_screener_codes_for_ticker special csvMap (some "TCS.NS") = [some "TCS"] ∧
    get_screener_codes_for_ticker special csvMap (some "500325.BO") = [some "500325"] ∧
    get_screener_codes_for_ticker special csvMap (some "RPOWER.BO") = [some "RPOWER"] := by
  refine ⟨fun s hsp hcsv hne hns => ?_, ?_, ?_, ?_⟩
  · simp [get_screener_codes_for_ticker, hsp, hcsv, hne, hns]
  · simp only [get_screener_codes_for_ticker, h1, h2]; decide
  · simp only [get_screener_codes_for_ticker, h3, h4]; decide
  · simp only [get_screener_codes_for_ticker, h5, h6]; decide

/-- C4 witness: the three concrete resolutions with empty override/CSV maps. -/
theorem C4_witness :
    get_screener_codes_for_ticker (fun _ => none) (fun _ => none) (some "TCS.NS") = [some "TCS"] ∧
    get_screener_codes_for_ticker (fun _ => none) (fun _ => none) (some "500325.BO") = [some "500325"] ∧
    get_screener_codes_for_ticker (fun _ => none) (fun _ => none) (some "RPOWER.BO") = [some "RPOWER"] :=
  (C4_resolver_suffix_stripping (fun _ => none) (fun _ => none)
    rfl rfl rfl rfl rfl rfl).2

/-- C5 counterexample: the claim says the resolver returns `None` as the sole
list element exactly when the ticker is empty or null, but on the *empty*
ticker (not covered by any map) the code appends the falsy symbol itself, so
the result is `[""]`, whose sole element is not `None`. -/
theorem C5_counterexample :
    get_screener_codes_for_ticker (fun _ => none) (fun _ => none) (some "") = [some ""] ∧
    ([some ""] : List (Option String)) ≠ [none] := by
  constructor
  · decide
  · decide

/-- C5 (amended): with the override table and CSV mapping empty, the resolver
returns `[None]` exactly when the ticker is *null*; the empty-string ticker
yields `[""]` (a non-null but empty sole element); and every non-null ticker
yields a non-empty list containing no null element. -/
theorem C5_resolver_failure_amended (special : String → Option SpecialVal)
    (csvMap : String → Option (List (Option String)))
    (hsp : ∀ s, special s = none) (hcsv : ∀ s, csvMap s = none) :
    (∀ symbol : Option String,
      get_screener_codes_for_ticker special csvMap symbol = [none] ↔ symbol = none) ∧
    get_screener_codes_for_ticker special csvMap (some "") = [some ""] ∧
    (∀ s : String, get_screener_codes_for_ticker special csvMap (some s) ≠ [] ∧
      ∀ c ∈ get_screener_codes_for_ticker special csvMap (some s), c ≠ none) := by
  refine ⟨fun symbol => ?_, ?_, fun s => ?_⟩
  · constructor
    · intro h
      match symbol with
      | none => rfl
      | some s =>
        obtain ⟨x, hx⟩ := resolver_some_shape special csvMap s (hsp s) (hcsv s)
        rw [hx] at h
        simp at h
    · rintro rfl
      simp [get_screener_codes_for_ticker]
  · simp only [get_screener_codes_for_ticker, hsp, hcsv]; decide
  · obtain ⟨x, hx⟩ := resolver_some_shape special csvMap s (hsp s) (hcsv s)
    rw [hx]
    constructor
    · simp
    · simp

/-- C5 witness: concrete instance of the amended statement — a null ticker
yields `[None]` and a plain ticker yields a non-null candidate list. -/
theorem C5_witness :
    get_screener_codes_for_ticker (fun _ => none) (fun _ => none) none = [none] ∧
    get_screener_codes_for_ticker (fun _ => none) (fun _ => none) (some "INFY") ≠ [] :=
  ⟨((C5_resolver_failure_amended (fun _ => none) (fun _ => none)
      (fun _ => rfl) (fun _ => rfl)).1 none).mpr rfl,
   ((C5_resolver_failure_amended (fun _ => none) (fun _ => none)
      (fun _ => rfl) (fun _ => rfl)).2.2 "INFY").1⟩

/-! ## The page fetcher (`fetch_screener_html`, app.py:80-138)

A `requests.get` is modelled by an oracle from the URL to an optional
response; `none` models a timeout or any other raised exception (both are
caught and mean "continue with the next candidate").  `finalUrl` is `resp.url`,
the URL after redirects. -/

structure HttpResp where
  status : Nat
  body : String
  finalUrl : String
deriving DecidableEq

/-- Network oracle: one process-wide view of `requests.get`. -/
abbrev Net := String → Option HttpResp

/-- Embedding of `screener_base` (app.py:77-78). -/
def screener_base (code : String) : String :=
  "https://www.screener.in/company/" ++ code ++ "/"

/-- Soft-failure phrases checked on a 200 body (app.py:107, 122). -/
def softFailText (body : String) : Bool :=
  containsSub "page not found" (lowerS body) || containsSub "does not exist" (lowerS body)

/-- Post-redirect URL check on a 200 response (app.py:111). -/
def badFinalUrl (u : String) : Bool :=
  containsSub "404" (lowerS u) || containsSub "not-found" (lowerS u)

/-- One iteration of the candidate loop of `fetch_screener_html`
(app.py:99-134), for a truthy code: `some body` means `return body`, `none`
means `continue` to the next candidate. -/
def fetchCode (net : Net) (code : String) : Option String :=
  match net (screener_base code ++ "consolidated/") with
  | some resp =>
    if resp.status = 200 then
      if softFailText resp.body then none          -- page indicates not found
      else if badFinalUrl resp.finalUrl then none  -- redirected to 404 page
      else some resp.body
    else if resp.status = 404 then
      -- try non-consolidated URL as fallback
      match net (screener_base code) with
      | some fb =>
        if fb.status = 200 then
          if softFailText fb.body then none else some fb.body
        else none
      | none => none
    else none  -- other HTTP status: continue
  | none => none  -- timeout / exception: continue

/-- The candidate loop of `fetch_screener_html` (app.py:95-138); falsy codes
(`None` or `""`) are skipped by `if not code: continue`. -/
def fetchLoop (net : Net) : List (Option String) → Option String
  | [] => none
  | none :: rest => fetchLoop net rest
  | some code :: rest =>
    if code.data.isEmpty then fetchLoop net rest
    else
      match fetchCode net code with
      | some body => some body
      | none => fetchLoop net rest

/-- Embedding of `fetch_screener_html` (app.py:80-138) given the resolved
candidate list: `if not codes or codes[0] is None: return None`, then the loop.
(The `lru_cache` wrapper is modelled separately by `lruCall`.) -/
def fetch_screener_html (net : Net) (codes : List (Option String)) : Option String :=
  match codes with
  | [] => none
  | none :: _ => none
  | some _ :: _ => fetchLoop net codes

/-- C1: on a non-empty candidate list the fetcher tries candidates strictly in
order; per candidate the consolidated URL is requested first and a clean 200
body is returned; a 200 body tripping the soft-failure text check or a final
URL containing "404"/"not-found" abandons the candidate; a 404 falls back to
the standalone URL, whose 200 body is returned when it passes the text check;
any other status or exception abandons the candidate; the first success is
committed (later candidates untried), and an exhausted list yields null. -/
theorem C1_fetch_candidate_order (net : Net) (code : String) (rest : List (Option String))
    (hc : code.data.isEmpty = false) :
    fetchLoop net [] = none ∧
    fetch_screener_html net (some code :: rest) = fetchLoop net (some code :: rest) ∧
    (fetchLoop net (some code :: rest) =
      match fetchCode net code with
      | some body => some body
      | none => fetchLoop net rest) ∧
    (∀ r, net (screener_base code ++ "consolidated/") = some r → r.status = 200 →
      softFailText r.body = false → badFinalUrl r.finalUrl = false →
      fetchCode net code = some r.body) ∧
    (∀ r, net (screener_base code ++ "consolidated/") = some r → r.status = 200 →
      (softFailText r.body = true ∨ badFinalUrl r.finalUrl = true) →
      fetchCode net code = none) ∧
    (∀ r fb, net (screener_base code ++ "consolidated/") = some r → r.status = 404 →
      net (screener_base code) = some fb → fb.status = 200 → softFailText fb.body = false →
      fetchCode net code = some fb.body) ∧
    (∀ r fb, net (screener_base code ++ "consolidated/") = some r → r.status = 404 →
      net (screener_base code) = some fb →
      (fb.status ≠ 200 ∨ softFailText fb.body = true) →
      fetchCode net code = none) ∧
    (∀ r, net (screener_base code ++ "consolidated/") = some r → r.status ≠ 200 →
      r.status ≠ 404 → fetchCode net code = none) ∧
    (net (screener_base code ++ "consolidated/") = none → fetchCode net code = none) := by
  refine ⟨rfl, rfl, ?_, ?_, ?_, ?_, ?_, ?_, ?_⟩
  · simp only [fetchLoop, hc]
    rfl
  · intro r hr h200 htext hurl
    simp [fetchCode, hr, h200, htext, hurl]
  · intro r hr h200 hbad
    rcases hbad with h | h <;> simp [fetchCode, hr, h200, h]
  · intro r fb hr h404 hfb h200 htext
    have hne : r.status ≠ 200 := by omega
    simp [fetchCode, hr, h404, hfb, h200, htext, hne]
  · intro r fb hr h404 hfb hbad
    have hne : r.status ≠ 200 := by omega
    rcases hbad with h | h <;> simp [fetchCode, hr, h404, hfb, hne, h]
  · intro r hr hne200 hne404
    simp [fetchCode, hr, hne200, hne404]
  · intro hr
    simp [fetchCode, hr]

/-! ## The `functools.lru_cache(maxsize=128)` wrapper (app.py:80, 155)

Both `fetch_screener_html` and `fetch_screener_metrics` are wrapped in
`@lru_cache(maxsize=128)`.  The cache is modelled as an association list in
most-recently-used-first order: a hit moves the entry to the front without
calling the wrapped function, a miss calls it, inserts the entry at the front
and evicts the least-recently-used entry beyond `maxsize`.  `lruCall` returns
(result, new cache, whether the wrapped function was invoked). -/

section LRU

variable {α β : Type} [DecidableEq α]

/-- Association-list lookup (first match). -/
def cacheFind : List (α × β) → α → Option β
  | [], _ => none
  | p :: rest, k => if p.1 = k then some p.2 else cacheFind rest k

/-- Remove all entries keyed `k` (keys are unique in an `lru_cache`). -/
def cacheErase : List (α × β) → α → List (α × β)
  | [], _ => []
  | p :: rest, k => if p.1 = k then cacheErase rest k else p :: cacheErase rest k

/-- One call through the LRU wrapper. -/
def lruCall (maxsize : Nat) (f : α → β) (c : List (α × β)) (k : α) :
    β × List (α × β) × Bool :=
  match cacheFind c k with
  | some v => (v, (k, v) :: cacheErase c k, false)
  | none => (f k, ((k, f k) :: c).take maxsize, true)

/-- A sequence of calls through the wrapper; returns the final cache. -/
def lruRun (maxsize : Nat) (f : α → β) (c : List (α × β)) (ks : List α) :
    List (α × β) :=
  ks.foldl (fun acc k => (lruCall maxsize f acc k).2.1) c

/-- A sequence of calls, also logging the keys whose values were fetched
(i.e. the calls that invoked the wrapped function). -/
def lruRunLog (maxsize : Nat) (f : α → β) (c : List (α × β)) (ks : List α) :
    List (α × β) × List α :=
  ks.foldl (fun acc k =>
    let r := lruCall maxsize f acc.1 k
    (r.2.1, if r.2.2 then acc.2 ++ [k] else acc.2)) (c, [])

theorem cacheFind_eq_none {l : List (α × β)} {k : α} :
    cacheFind l k = none ↔ ∀ p ∈ l, p.1 ≠ k := by
  induction l with
  | nil => simp [cacheFind]
  | cons p rest ih =>
    by_cases h : p.1 = k
    · simp [cacheFind, h, ih]
    · simp [cacheFind, h, ih]

theorem cacheFind_append_of_ne {l1 l2 : List (α × β)} {k : α}
    (h : ∀ p ∈ l1, p.1 ≠ k) : cacheFind (l1 ++ l2) k = cacheFind l2 k := by
  induction l1 with
  | nil => rfl
  | cons p rest ih =>
    have hp : p.1 ≠ k := h p (by simp)
    simp only [List.cons_append, cacheFind, if_neg hp]
    exact ih fun q hq => h q (by simp [hq])

theorem cacheFind_cons_self {l : List (α × β)} {k : α} {v : β} :
    cacheFind ((k, v) :: l) k = some v := by
  simp [cacheFind]

theorem cacheErase_of_ne {l : List (α × β)} {k : α} (h : ∀ p ∈ l, p.1 ≠ k) :
    cacheErase l k = l := by
  induction l with
  | nil => rfl
  | cons p rest ih =>
    have hp : p.1 ≠ k := h p (by simp)
    simp only [cacheErase, if_neg hp]
    rw [ih fun q hq => h q (by simp [hq])]

theorem cacheErase_append {l1 l2 : List (α × β)} {k : α} :
    cacheErase (l1 ++ l2) k = cacheErase l1 k ++ cacheErase l2 k := by
  induction l1 with
  | nil => rfl
  | cons p rest ih =>
    by_cases h : p.1 = k <;> simp [cacheErase, h, ih]

theorem cacheErase_cons_self {l : List (α × β)} {k : α} {v : β} :
    cacheErase ((k, v) :: l) k = cacheErase l k := by
  simp [cacheErase]

theorem cacheErase_sublist (l : List (α × β)) (k : α) :
    (cacheErase l k).Sublist l := by
  induction l with
  | nil => simp [cacheErase]
  | cons p rest ih =>
    by_cases h : p.1 = k
    · simpa [cacheErase, h] using ih.cons p
    · simpa [cacheErase, h] using ih.cons₂ p

theorem mem_cacheErase {l : List (α × β)} {k : α} {p : α × β}
    (h : p ∈ cacheErase l k) : p ∈ l ∧ p.1 ≠ k := by
  induction l with
  | nil => simp [cacheErase] at h
  | cons q rest ih =>
    by_cases hq : q.1 = k
    · simp only [cacheErase, if_pos hq] at h
      have := ih h
      exact ⟨by simp [this.1], this.2⟩
    · simp only [cacheErase, if_neg hq] at h
      rcases List.mem_cons.mp h with h | h
      · subst h; exact ⟨by simp, hq⟩
      · have := ih h
        exact ⟨by simp [this.1], this.2⟩

theorem cacheFind_eq_some_split {l : List (α × β)} {k : α} {v : β}
    (h : cacheFind l k = some v) :
    ∃ l1 l2, l = l1 ++ (k, v) :: l2 ∧ ∀ p ∈ l1, p.1 ≠ k := by
  induction l with
  | nil => simp [cacheFind] at h
  | cons p rest ih =>
    by_cases hp : p.1 = k
    · simp only [cacheFind, if_pos hp] at h
      refine ⟨[], rest, ?_, by simp⟩
      obtain ⟨p1, p2⟩ := p
      simp only at hp
      cases h
      subst hp
      simp
    · simp only [cacheFind, if_neg hp] at h
      obtain ⟨l1, l2, heq, hne⟩ := ih h
      refine ⟨p :: l1, l2, by simp [heq], ?_⟩
      intro q hq
      rcases List.mem_cons.mp hq with hq | hq
      · subst hq; exact hp
      · exact hne q hq

theorem cacheErase_cons_ne {l : List (α × β)} {p : α × β} {k : α} (h : p.1 ≠ k) :
    cacheErase (p :: l) k = p :: cacheErase l k := by
  simp [cacheErase, h]

theorem length_cacheErase_lt {l : List (α × β)} {x : α} {w : β}
    (h : cacheFind l x = some w) : (cacheErase l x).length < l.length := by
  induction l with
  | nil => simp [cacheFind] at h
  | cons p rest ih =>
    by_cases hp : p.1 = x
    · simp only [cacheErase, if_pos hp, List.length_cons]
      exact Nat.lt_succ_of_le (cacheErase_sublist rest x).length_le
    · simp only [cacheFind, if_neg hp] at h
      simp only [cacheErase, if_neg hp, List.length_cons]
      exact Nat.succ_lt_succ (ih h)

theorem mem_keys_cacheErase {l : List (α × β)} {y x : α}
    (hy : y ∈ l.map Prod.fst) (hne : y ≠ x) :
    y ∈ (cacheErase l x).map Prod.fst := by
  induction l with
  | nil => simp at hy
  | cons p rest ih =>
    rcases List.mem_cons.mp hy with hy | hy
    · have hp : p.1 ≠ x := hy ▸ hne
      rw [cacheErase_cons_ne hp]
      simp [hy]
    · by_cases hp : p.1 = x
      · simp only [cacheErase, if_pos hp]
        exact ih hy
      · rw [cacheErase_cons_ne hp]
        simp only [List.map_cons, List.mem_cons]
        exact Or.inr (ih hy)

/-- Entries strictly above and strictly below the pinned entry `(k, v)` carry
keys different from `k` when the key list is duplicate-free. -/
theorem keys_ne_of_nodup {k : α} {v : β} {pre suf : List (α × β)}
    (hnd : ((pre ++ (k, v) :: suf).map Prod.fst).Nodup) :
    (∀ p ∈ pre, p.1 ≠ k) ∧ ∀ p ∈ suf, p.1 ≠ k := by
  rw [List.map_append, List.map_cons, List.nodup_middle] at hnd
  have hk : k ∉ pre.map Prod.fst ++ suf.map Prod.fst := (List.nodup_cons.mp hnd).1
  constructor
  · intro p hp heq
    exact hk (List.mem_append_left _ (heq ▸ List.mem_map_of_mem Prod.fst hp))
  · intro p hp heq
    exact hk (List.mem_append_right _ (heq ▸ List.mem_map_of_mem Prod.fst hp))

/-- Invariant of the eviction analysis for a pinned cache entry `(k, v)`:
the cache splits into a most-recent segment `pre` of touched keys, the pinned
entry, a segment `sufT` of touched keys, and a bottom segment `sufU` of
untouched keys; `T` is the set of touched keys other than `k`, and every
touched key is still cached. -/
def LruInv (maxsize : Nat) (k : α) (v : β) (T : Finset α) (c : List (α × β)) : Prop :=
  k ∉ T ∧
  ∃ pre sufT sufU : List (α × β),
    c = pre ++ (k, v) :: (sufT ++ sufU) ∧
    (c.map Prod.fst).Nodup ∧
    c.length ≤ maxsize ∧
    (∀ p ∈ pre, p.1 ∈ T) ∧
    (∀ p ∈ sufT, p.1 ∈ T) ∧
    (∀ p ∈ sufU, p.1 ∉ T) ∧
    (∀ t ∈ T, t ∈ c.map Prod.fst)

theorem lruCall_of_find_some {maxsize : Nat} {f : α → β} {c : List (α × β)} {k : α}
    {v : β} (h : cacheFind c k = some v) :
    lruCall maxsize f c k = (v, (k, v) :: cacheErase c k, false) := by
  simp [lruCall, h]

theorem lruInv_cacheFind {maxsize : Nat} {k : α} {v : β} {T : Finset α}
    {c : List (α × β)} (h : LruInv maxsize k v T c) : cacheFind c k = some v := by
  obtain ⟨hkT, pre, sufT, sufU, hc, hnd, hlen, hpre, hsufT, hsufU, hTc⟩ := h
  subst hc
  rw [cacheFind_append_of_ne (keys_ne_of_nodup hnd).1, cacheFind_cons_self]

/-- Nodup lists of keys drawn from a finite set are no longer than its card. -/
theorem length_le_card_of_keys {l : List (α × β)} {T : Finset α}
    (hnd : (l.map Prod.fst).Nodup) (hsub : ∀ p ∈ l, p.1 ∈ T) :
    l.length ≤ T.card := by
  have hlen : (l.map Prod.fst).length = l.length := List.length_map l Prod.fst
  rw [← hlen, ← List.toFinset_card_of_nodup hnd]
  apply Finset.card_le_card
  intro y hy
  rw [List.mem_toFinset] at hy
  obtain ⟨p, hp, hpy⟩ := List.mem_map.mp hy
  exact hpy ▸ hsub p hp

/-- One LRU call preserves the invariant as long as the call's key is drawn
from the allowed set `U` (or is `k` itself) and `U` leaves room for `k`. -/
theorem lruStep (maxsize : Nat) (g : α → β) (k : α) (v : β) (U : Finset α)
    (hU : U.card + 1 ≤ maxsize) (T : Finset α) (hTU : T ⊆ U)
    (c : List (α × β)) (hInv : LruInv maxsize k v T c)
    (x : α) (hx : x ≠ k → x ∈ U) :
    ∃ T2 : Finset α, T2 ⊆ U ∧ LruInv maxsize k v T2 (lruCall maxsize g c x).2.1 := by
  obtain ⟨hkT, pre, sufT, sufU, hc, hnd, hlen, hpre, hsufT, hsufU, hTc⟩ := hInv
  by_cases hxk : x = k
  · -- the intervening call re-requests k itself: a hit that refreshes it
    subst hxk
    have hfind : cacheFind c x = some v :=
      lruInv_cacheFind ⟨hkT, pre, sufT, sufU, hc, hnd, hlen, hpre, hsufT, hsufU, hTc⟩
    refine ⟨T, hTU, hkT, [], pre ++ sufT, sufU, ?_, ?_, ?_, by simp, ?_, hsufU, ?_⟩
    · subst hc
      simp only [lruCall, hfind]
      rw [cacheErase_append, cacheErase_of_ne (keys_ne_of_nodup hnd).1,
        cacheErase_cons_self,
        cacheErase_of_ne (keys_ne_of_nodup hnd).2]
      simp [List.append_assoc]
    · subst hc
      simp only [lruCall, hfind]
      rw [cacheErase_append, cacheErase_of_ne (keys_ne_of_nodup hnd).1,
        cacheErase_cons_self,
        cacheErase_of_ne (keys_ne_of_nodup hnd).2]
      rw [List.map_append, List.map_cons, List.nodup_middle] at hnd
      simpa using hnd
    · subst hc
      simp only [lruCall, hfind]
      rw [cacheErase_append, cacheErase_of_ne (keys_ne_of_nodup hnd).1,
        cacheErase_cons_self,
        cacheErase_of_ne (keys_ne_of_nodup hnd).2]
      simpa using hlen
    · intro p hp
      rcases List.mem_append.mp hp with hp | hp
      · exact hpre p hp
      · exact hsufT p hp
    · intro t ht
      have := hTc t ht
      subst hc
      simp only [lruCall, hfind]
      rw [cacheErase_append, cacheErase_of_ne (keys_ne_of_nodup hnd).1,
        cacheErase_cons_self,
        cacheErase_of_ne (keys_ne_of_nodup hnd).2]
      simp only [List.map_append, List.map_cons, List.mem_append, List.mem_cons] at this ⊢
      tauto
  · -- a call on a key other than k
    have hxU : x ∈ U := hx hxk
    match hfind : cacheFind c x with
    | some w =>
      -- hit: the entry moves to the front; k keeps its relative position
      refine ⟨insert x T, Finset.insert_subset hxU hTU, ?_,
        (x, w) :: cacheErase pre x, cacheErase sufT x, cacheErase sufU x, ?_, ?_, ?_, ?_, ?_, ?_, ?_⟩
      · simp only [Finset.mem_insert, not_or]
        exact ⟨fun h => hxk h.symm, hkT⟩
      · subst hc
        simp only [lruCall, hfind]
        rw [cacheErase_append, cacheErase_cons_ne (by simpa using Ne.symm hxk),
          cacheErase_append]
        simp [List.append_assoc]
      · subst hc
        simp only [lruCall, hfind, List.map_cons]
        rw [List.nodup_cons]
        constructor
        · intro hmem
          obtain ⟨p, hp, hpx⟩ := List.mem_map.mp hmem
          exact (mem_cacheErase hp).2 hpx
        · exact hnd.sublist ((cacheErase_sublist _ _).map Prod.fst)
      · subst hc
        simp only [lruCall, hfind, List.length_cons]
        exact Nat.le_trans (Nat.succ_le_of_lt (length_cacheErase_lt hfind)) hlen
      · intro p hp
        rcases List.mem_cons.mp hp with hp | hp
        · subst hp; exact Finset.mem_insert_self x T
        · exact Finset.mem_insert_of_mem (hpre p (mem_cacheErase hp).1)
      · intro p hp
        exact Finset.mem_insert_of_mem (hsufT p (mem_cacheErase hp).1)
      · intro p hp
        obtain ⟨hpmem, hpne⟩ := mem_cacheErase hp
        simp only [Finset.mem_insert, not_or]
        exact ⟨hpne, hsufU p hpmem⟩
      · intro t ht
        simp only [lruCall, hfind, List.map_cons, List.mem_cons]
        rcases Finset.mem_insert.mp ht with ht | ht
        · exact Or.inl ht
        · by_cases htx : t = x
          · exact Or.inl htx
          · exact Or.inr (mem_keys_cacheErase (hTc t ht) htx)
    | none =>
      -- miss: a fresh entry is fetched; only untouched bottom entries can
      -- fall past the size limit because the touched segment is small
      have hnotin : ∀ p ∈ c, p.1 ≠ x := cacheFind_eq_none.mp hfind
      have hxT : x ∉ T := by
        intro hmem
        obtain ⟨p, hp, hpx⟩ := List.mem_map.mp (hTc x hmem)
        exact hnotin p hp hpx
      have hcard : T.card + 1 ≤ U.card := by
        have : (insert x T).card ≤ U.card := Finset.card_le_card (Finset.insert_subset hxU hTU)
        rwa [Finset.card_insert_of_not_mem hxT] at this
      have hsegnd : ((pre ++ sufT).map Prod.fst).Nodup := by
        have hsub : (pre ++ sufT).Sublist c := by
          rw [hc]
          refine List.Sublist.append_left ?_ pre
          exact ((List.sublist_append_left sufT sufU).cons (k, v))
        exact hnd.sublist (hsub.map Prod.fst)
      have hseglen : pre.length + sufT.length ≤ T.card := by
        have := length_le_card_of_keys hsegnd (fun p hp => by
          rcases List.mem_append.mp hp with hp | hp
          · exact hpre p hp
          · exact hsufT p hp)
        simpa using this
      have hroom : pre.length + sufT.length + 2 ≤ maxsize := by omega
      refine ⟨insert x T, Finset.insert_subset hxU hTU, ?_,
        (x, g x) :: pre, sufT, sufU.take (maxsize - (pre.length + sufT.length + 2)), ?_, ?_, ?_, ?_, ?_, ?_, ?_⟩
      · simp only [Finset.mem_insert, not_or]
        exact ⟨fun h => hxk h.symm, hkT⟩
      · subst hc
        simp only [lruCall, hfind]
        have hsplit : (x, g x) :: (pre ++ (k, v) :: (sufT ++ sufU))
            = ((x, g x) :: pre ++ (k, v) :: sufT) ++ sufU := by
          simp [List.append_assoc]
        rw [hsplit, List.take_append_eq_append_take,
          List.take_of_length_le (by simp; omega)]
        simp [List.append_assoc]
        omega
      · subst hc
        simp only [lruCall, hfind]
        have hsub : ((x, g x) :: (pre ++ (k, v) :: (sufT ++ sufU))).take maxsize
            |>.Sublist ((x, g x) :: (pre ++ (k, v) :: (sufT ++ sufU))) :=
          List.take_sublist _ _
        refine List.Nodup.sublist (hsub.map Prod.fst) ?_
        simp only [List.map_cons, List.nodup_cons]
        constructor
        · intro hmem
          obtain ⟨p, hp, hpx⟩ := List.mem_map.mp hmem
          exact hnotin p hp hpx
        · exact hnd
      · simp only [lruCall, hfind]
        exact Nat.le_trans (List.length_take_le _ _) (Nat.le_refl _)
      · intro p hp
        rcases List.mem_cons.mp hp with hp | hp
        · subst hp; exact Finset.mem_insert_self x T
        · exact Finset.mem_insert_of_mem (hpre p hp)
      · intro p hp
        exact Finset.mem_insert_of_mem (hsufT p hp)
      · intro p hp
        have hpmem : p ∈ sufU := List.mem_of_mem_take hp
        simp only [Finset.mem_insert, not_or]
        refine ⟨?_, hsufU p hpmem⟩
        intro hpx
        exact hnotin p (by rw [hc]; simp [hpmem]) hpx
      · intro t ht
        simp only [lruCall, hfind]
        obtain ⟨m, rfl⟩ : ∃ m, maxsize = m + 1 := ⟨maxsize - 1, by omega⟩
        rcases Finset.mem_insert.mp ht with ht | ht
        · rw [ht, hc, List.take_succ_cons]
          simp
        · -- a previously touched key lives in pre or sufT, both fully kept
          have htk : t ≠ k := fun h => hkT (h ▸ ht)
          have htmem : t ∈ pre.map Prod.fst ∨ t ∈ sufT.map Prod.fst := by
            have hm := hTc t ht
            rw [hc] at hm
            rw [List.map_append, List.map_cons, List.map_append,
              List.mem_append, List.mem_cons, List.mem_append] at hm
            rcases hm with h | h | h | h
            · exact Or.inl h
            · exact absurd h htk
            · exact Or.inr h
            · exfalso
              obtain ⟨p, hp, hpt⟩ := List.mem_map.mp h
              exact hsufU p hp (hpt ▸ ht)
          have hsplit : (x, g x) :: (pre ++ (k, v) :: (sufT ++ sufU))
              = ((x, g x) :: pre ++ (k, v) :: sufT) ++ sufU := by
            simp [List.append_assoc]
          rw [hc, hsplit, List.take_append_eq_append_take,
            List.take_of_length_le (by simp; omega)]
          simp only [List.cons_append, List.map_append, List.map_cons,
            List.mem_append, List.mem_cons]
          tauto

/-- After any call on key `k` the invariant holds with no touched keys. -/
theorem lruInit (maxsize : Nat) (hm : 1 ≤ maxsize) (f : α → β) (c0 : List (α × β))
    (hnd : (c0.map Prod.fst).Nodup) (hlen : c0.length ≤ maxsize) (k : α) :
    LruInv maxsize k (lruCall maxsize f c0 k).1 (∅ : Finset α) (lruCall maxsize f c0 k).2.1 := by
  match hfind : cacheFind c0 k with
  | some v =>
    obtain ⟨l1, l2, hc0, hne⟩ := cacheFind_eq_some_split hfind
    subst hc0
    simp only [lruCall, hfind]
    have herase : cacheErase (l1 ++ (k, v) :: l2) k = l1 ++ l2 := by
      rw [cacheErase_append, cacheErase_of_ne hne, cacheErase_cons_self,
        cacheErase_of_ne (keys_ne_of_nodup hnd).2]
    refine ⟨by simp, [], [], l1 ++ l2, by rw [herase]; simp, ?_, ?_, by simp, by simp,
      by simp, by simp⟩
    · rw [herase]
      rw [List.map_append, List.map_cons, List.nodup_middle] at hnd
      simpa using hnd
    · rw [herase]
      simpa using hlen
  | none =>
    have hne : ∀ p ∈ c0, p.1 ≠ k := cacheFind_eq_none.mp hfind
    simp only [lruCall, hfind]
    obtain ⟨m, rfl⟩ : ∃ m, maxsize = m + 1 := ⟨maxsize - 1, by omega⟩
    rw [List.take_succ_cons]
    refine ⟨by simp, [], [], c0.take m, by simp, ?_, ?_, by simp, by simp, by simp, by simp⟩
    · simp only [List.map_cons, List.nodup_cons]
      constructor
      · intro hmem
        obtain ⟨p, hp, hpk⟩ := List.mem_map.mp hmem
        exact hne p (List.mem_of_mem_take hp) hpk
      · exact hnd.sublist ((List.take_sublist m c0).map Prod.fst)
    · simp only [List.length_cons]
      have := List.length_take_le m c0
      omega

/-- The invariant survives any run of intervening calls whose non-`k` keys are
drawn from `U`. -/
theorem lruRunInv (maxsize : Nat) (g : α → β) (k : α) (v : β) (U : Finset α)
    (hU : U.card + 1 ≤ maxsize) :
    ∀ (ks : List α) (T : Finset α) (c : List (α × β)),
      (∀ x ∈ ks, x ≠ k → x ∈ U) → T ⊆ U → LruInv maxsize k v T c →
      ∃ T2, T2 ⊆ U ∧ LruInv maxsize k v T2 (lruRun maxsize g c ks)
  | [], T, _, _, hTU, hInv => ⟨T, hTU, hInv⟩
  | x :: ks, T, c, hks, hTU, hInv => by
    obtain ⟨T1, hT1U, hInv1⟩ :=
      lruStep maxsize g k v U hU T hTU c hInv x (hks x (by simp))
    have hrw : lruRun maxsize g c (x :: ks)
        = lruRun maxsize g (lruCall maxsize g c x).2.1 ks := rfl
    rw [hrw]
    exact lruRunInv maxsize g k v U hU ks T1 (lruCall maxsize g c x).2.1
      (fun y hy => hks y (by simp [hy])) hT1U hInv1

/-- C2 (amended): for an `lru_cache(maxsize)`-wrapped fetcher, after a call on
key `k`, any run of intervening calls that *requests* fewer than `maxsize`
distinct keys other than `k` (hits included — a hit refreshes recency without
fetching) leaves `k` cached, so a later call on `k` returns exactly the
memoized value and does not invoke the wrapped function, even when the
underlying oracle has changed (`g`, `h` arbitrary). -/
theorem C2_lru_memoization_amended (maxsize : Nat)
    (f g h : α → β) (c0 : List (α × β)) (k : α) (ks : List α)
    (hnd : (c0.map Prod.fst).Nodup) (hlen : c0.length ≤ maxsize)
    (hdist : ((ks.filter (fun x => decide (x ≠ k))).toFinset).card + 1 ≤ maxsize) :
    (lruCall maxsize h (lruRun maxsize g (lruCall maxsize f c0 k).2.1 ks) k).1
        = (lruCall maxsize f c0 k).1 ∧
    (lruCall maxsize h (lruRun maxsize g (lruCall maxsize f c0 k).2.1 ks) k).2.2 = false := by
  have hm : 1 ≤ maxsize := by omega
  have hInit := lruInit maxsize hm f c0 hnd hlen k
  obtain ⟨T2, hT2U, hInv2⟩ := lruRunInv maxsize g k (lruCall maxsize f c0 k).1
    ((ks.filter (fun x => decide (x ≠ k))).toFinset) hdist ks ∅
    (lruCall maxsize f c0 k).2.1
    (fun x hx hxk => by
      rw [List.mem_toFinset, List.mem_filter]
      exact ⟨hx, by simpa using hxk⟩)
    (Finset.empty_subset _) hInit
  have hfind := lruInv_cacheFind hInv2
  constructor
  · rw [lruCall_of_find_some hfind]
  · rw [lruCall_of_find_some hfind]

/-- C2 witness: concrete instance of the amended cache theorem at
`maxsize = 128` with two intervening calls. -/
theorem C2_amended_witness :
    (lruCall 128 (fun _ => 1)
        (lruRun 128 (fun _ => 0) (lruCall 128 (fun _ => (0 : Nat)) [] (0 : Nat)).2.1 [1, 2]) 0).1
      = (lruCall 128 (fun _ => (0 : Nat)) [] (0 : Nat)).1 ∧
    (lruCall 128 (fun _ => 1)
        (lruRun 128 (fun _ => 0) (lruCall 128 (fun _ => (0 : Nat)) [] (0 : Nat)).2.1 [1, 2]) 0).2.2
      = false :=
  C2_lru_memoization_amended 128 (fun _ => 0) (fun _ => 0) (fun _ => 1) [] 0 [1, 2]
    (by decide) (by decide) (by decide)

end LRU

/-- Concrete network for the C1 witness: the consolidated page of code `TCS`
responds 200 with a clean body; every other URL times out. -/
def c1Net : Net := fun u =>
  if u = screener_base "TCS" ++ "consolidated/" then
    some ⟨200, "<html>TCS fundamentals</html>", "https://www.screener.in/company/TCS/consolidated/"⟩
  else none

/-- C1 witness: on the concrete `c1Net`, the single candidate `TCS` succeeds on
the consolidated URL and its body is returned. -/
theorem C1_witness :
    fetchLoop c1Net [some "TCS"] = some "<html>TCS fundamentals</html>" := by
  have h := C1_fetch_candidate_order c1Net "TCS" [] (by decide)
  have hcode : fetchCode c1Net "TCS" = some "<html>TCS fundamentals</html>" :=
    h.2.2.2.1 ⟨200, "<html>TCS fundamentals</html>",
      "https://www.screener.in/company/TCS/consolidated/"⟩ (by decide) rfl (by decide) (by decide)
  rw [h.2.2.1, hcode]

/-! ### C2 counterexample

The claim's proviso counts only keys *fetched* in between, but `lru_cache`
hits refresh recency too.  Warm the cache with 127 other tickers, fetch `K`,
then re-request the 127 warm tickers (all hits, no fetch) followed by one new
ticker `X` (the only fetch in between): `K` is now the least-recently-used
entry and is evicted, so the second call on `K` fetches again and can observe
a changed site. -/

/-- Site state at the time of the first call: every page is 200/clean. -/
def c2Net1 : Net := fun u => some ⟨200, "stale", u⟩

/-- Site state at the time of the second call: same pages, new body. -/
def c2Net2 : Net := fun u => some ⟨200, "fresh", u⟩

/-- The wrapped fetcher (one candidate code per ticker), first site state. -/
def c2Fetch1 : String → Option String := fun sym => fetch_screener_html c2Net1 [some sym]

/-- The wrapped fetcher against the changed site. -/
def c2Fetch2 : String → Option String := fun sym => fetch_screener_html c2Net2 [some sym]

/-- 127 tickers distinct from `K` and `X`. -/
def c2Others : List String := (List.range 127).map (fun i => "T" ++ Nat.repr (i + 1))

/-- Cache warmed with the 127 other tickers (before the first call on `K`). -/
def c2Warm : List (String × Option String) := lruRun 128 c2Fetch1 [] c2Others

/-- First call on `K`: a miss that fetches and caches the stale body. -/
def c2First : Option String × List (String × Option String) × Bool :=
  lruCall 128 c2Fetch1 c2Warm "K"

/-- Intervening calls: the 127 warm tickers again (cache hits) and one new
ticker `X`; the log records the keys that were actually fetched. -/
def c2Mid : List (String × Option String) × List String :=
  lruRunLog 128 c2Fetch1 c2First.2.1 (c2Others ++ ["X"])

/-- Second call on `K`, with the site now serving different content. -/
def c2Second : Option String × List (String × Option String) × Bool :=
  lruCall 128 c2Fetch2 c2Mid.1 "K"

set_option maxRecDepth 40000 in
/-- C2 counterexample: exactly one distinct key (`X`) is fetched between the
two calls on `K` — fewer than the cache maximum of 128 — yet the second call
invokes the network fetch again and returns the changed body rather than the
value memoized by the first call. -/
theorem C2_counterexample :
    c2First.1 = some "stale" ∧ c2First.2.2 = true ∧
    c2Mid.2 = ["X"] ∧
    c2Second.2.2 = true ∧ c2Second.1 = some "fresh" ∧
    (some "fresh" : Option String) ≠ some "stale" :=
  ⟨rfl, rfl, rfl, rfl, rfl, by decide⟩

/-! ## Exact decimal arithmetic

Python floats are modelled as exact fractions `Frac` (denominator positive by
construction in every value produced here).  The scraped values the claims
exercise are plain decimal literals, on which exact fractions agree with IEEE
arithmetic for every compared digit; the parser models Python `float()` on
plain decimal literals (no exponent/`inf`/`nan` forms, which the scraped
tables do not produce). -/

structure Frac where
  num : Int
  den : Int
deriving DecidableEq, Repr

def Frac.div (a b : Frac) : Frac :=
  let n := a.num * b.den
  let d := a.den * b.num
  if d < 0 then ⟨-n, -d⟩ else ⟨n, d⟩

def Frac.sub (a b : Frac) : Frac :=
  ⟨a.num * b.den - b.num * a.den, a.den * b.den⟩

def Frac.mulInt (a : Frac) (m : Int) : Frac := ⟨a.num * m, a.den⟩

/-- Numeric equality of fractions (cross-multiplication). -/
def Frac.beq (a b : Frac) : Bool := a.num * b.den == b.num * a.den

def Frac.isZero (a : Frac) : Bool := a.num == 0

def digitsToNat (cs : List Char) : Nat :=
  cs.foldl (fun a c => a * 10 + (c.toNat - 48)) 0

def pow10 : Nat → Nat
  | 0 => 1
  | n + 1 => 10 * pow10 n

/-- Python float values: finite values (kept exact), the infinities, and nan.
A missing pandas cell `str`-converts to `"nan"`, which `float()` accepts, so
the non-finite values are observable in the program. -/
inductive PyNum where
  | fin (q : Frac)
  | pinf
  | ninf
  | nan
deriving DecidableEq, Repr

/-- Python `x == 0` on a float: false for nan and the infinities. -/
def PyNum.isZero : PyNum → Bool
  | fin q => q.isZero
  | _ => false

/-- IEEE division as Python floats perform it.  Division by an exact zero
would raise `ZeroDivisionError` in Python, but both call sites guard it
(`if prev_f == 0` at app.py:319, `not in (None, 0)` at app.py:276), so that
case is unreachable and mapped to `nan` here. -/
def PyNum.div : PyNum → PyNum → PyNum
  | nan, _ => nan
  | _, nan => nan
  | pinf, pinf => nan
  | pinf, ninf => nan
  | ninf, pinf => nan
  | ninf, ninf => nan
  | pinf, fin b => if b.num < 0 then ninf else pinf
  | ninf, fin b => if b.num < 0 then pinf else ninf
  | fin _, pinf => fin ⟨0, 1⟩
  | fin _, ninf => fin ⟨0, 1⟩
  | fin a, fin b => if b.isZero then nan else fin (a.div b)

/-- IEEE subtraction. -/
def PyNum.sub : PyNum → PyNum → PyNum
  | nan, _ => nan
  | _, nan => nan
  | pinf, pinf => nan
  | pinf, _ => pinf
  | ninf, ninf => nan
  | ninf, _ => ninf
  | fin _, pinf => ninf
  | fin _, ninf => pinf
  | fin a, fin b => fin (a.sub b)

/-- Multiplication by an integer constant (the code multiplies by 100). -/
def PyNum.mulInt : PyNum → Int → PyNum
  | nan, _ => nan
  | pinf, m => if m < 0 then ninf else if m = 0 then nan else pinf
  | ninf, m => if m < 0 then pinf else if m = 0 then nan else ninf
  | fin a, m => fin (a.mulInt m)

/-- PEP 515: every underscore must sit strictly between two digits (checked
against the previous character and the next one). -/
def underscoresOk : Option Char → List Char → Bool
  | _, [] => true
  | prev, c :: rest =>
    if c == '_' then
      (match prev with | some p => p.isDigit | none => false) &&
      (match rest with | d :: _ => d.isDigit | [] => false) &&
      underscoresOk (some c) rest
    else underscoresOk (some c) rest

/-- Optional exponent suffix `e`/`E` with an optional sign; `[]` means no
exponent; anything else is a parse failure. -/
def parseExp : List Char → Option Int
  | [] => some 0
  | c :: rest =>
    if c == 'e' || c == 'E' then
      let (esign, r2) := match rest with
        | '-' :: r => ((-1 : Int), r)
        | '+' :: r => ((1 : Int), r)
        | _ => ((1 : Int), rest)
      let ds := r2.takeWhile Char.isDigit
      if ds.isEmpty || !(r2.dropWhile Char.isDigit).isEmpty then none
      else some (esign * Int.ofNat (digitsToNat ds))
    else none

/-- Decimal mantissa: integer digits, optional point, fraction digits; yields
the combined digits, the fraction length, and the unconsumed remainder. -/
def parseMantissa (cs : List Char) : Option (Nat × Nat × List Char) :=
  let ip := cs.takeWhile Char.isDigit
  let rest := cs.dropWhile Char.isDigit
  match rest with
  | '.' :: r2 =>
    let fp := r2.takeWhile Char.isDigit
    let r3 := r2.dropWhile Char.isDigit
    if ip.isEmpty && fp.isEmpty then none
    else some (digitsToNat (ip ++ fp), fp.length, r3)
  | _ =>
    if ip.isEmpty then none else some (digitsToNat ip, 0, rest)

/-- Model of Python `float(s)`: surrounding whitespace, an optional sign,
case-insensitive `nan`/`inf`/`infinity`, or a decimal literal with optional
fraction, optional exponent, and PEP-515 underscores.  (Non-ASCII digit forms
are not modelled; the scraped pages do not produce them.) -/
def pyFloat (s : String) : Option PyNum :=
  let cs := ((s.data.dropWhile Char.isWhitespace).reverse.dropWhile Char.isWhitespace).reverse
  let (neg, cs2) := match cs with
    | '-' :: rest => (true, rest)
    | '+' :: rest => (false, rest)
    | _ => (false, cs)
  let low := cs2.map Char.toLower
  if low == ['n', 'a', 'n'] then some PyNum.nan
  else if low == ['i', 'n', 'f'] || low == "infinity".data then
    some (if neg then PyNum.ninf else PyNum.pinf)
  else if !underscoresOk none cs2 then none
  else
    let cs3 := cs2.filter (fun c => c != '_')
    match parseMantissa cs3 with
    | none => none
    | some (m, fracLen, rest) =>
      match parseExp rest with
      | none => none
      | some e =>
        let sign : Int := if neg then -1 else 1
        if (fracLen : Int) ≤ e then
          some (PyNum.fin ⟨sign * Int.ofNat (m * pow10 (e - (fracLen : Int)).toNat), 1⟩)
        else
          some (PyNum.fin ⟨sign * Int.ofNat m, Int.ofNat (pow10 ((fracLen : Int) - e).toNat)⟩)

/-- Match of the regex `-?\d[\d,]*(?:\.\d+)?` starting at a digit. -/
def numTokenDigits (cs : List Char) : Option (List Char) :=
  match cs with
  | c :: rest =>
    if c.isDigit then
      let body := rest.takeWhile (fun x => x.isDigit || x == ',')
      let rest2 := rest.dropWhile (fun x => x.isDigit || x == ',')
      match rest2 with
      | '.' :: tail =>
        let fp := tail.takeWhile Char.isDigit
        if fp.isEmpty then some (c :: body) else some (c :: body ++ '.' :: fp)
      | _ => some (c :: body)
    else none
  | [] => none

/-- Match of the regex `-?\d[\d,]*(?:\.\d+)?` at the current position. -/
def numTokenAt (cs : List Char) : Option (List Char) :=
  match cs with
  | '-' :: rest => (numTokenDigits rest).map (fun t => '-' :: t)
  | _ => numTokenDigits cs

/-- Leftmost match of the regex, as `re.search` finds it. -/
def findNumToken : List Char → Option (List Char)
  | [] => none
  | c :: rest =>
    match numTokenAt (c :: rest) with
    | some t => some t
    | none => findNumToken rest

/-- Embedding of `_num` (app.py:140-149): falsy input fails, else search for
the first `-?\d[\d,]*(?:\.\d+)?` token, strip commas and parse as float.
A matched token is always a plain decimal literal, so its float value is
always finite; the non-finite arm below is unreachable. -/
def numOf (s : Option String) : Option Frac :=
  match s with
  | none => none
  | some str =>
    if str.data.isEmpty then none
    else
      match findNumToken str.data with
      | none => none
      | some tok =>
        match pyFloat (String.mk (tok.filter (fun c => c != ','))) with
        | some (PyNum.fin q) => some q
        | _ => none

/-- Round to the nearest integer, ties to even (as Python float formatting
rounds exact halves). -/
def Frac.roundHalfEven (a : Frac) : Int :=
  let fl := Int.fdiv a.num a.den
  let r := a.num - fl * a.den
  if 2 * r < a.den then fl
  else if a.den < 2 * r then fl + 1
  else if fl % 2 == 0 then fl else fl + 1

/-- Python `f"{x:.Nf}"` on an exact fraction (the sign of a negative zero is
not modelled; no claim exercises it). -/
def fmtFixed (decimals : Nat) (q : Frac) : String :=
  let n := Frac.roundHalfEven ⟨q.num * Int.ofNat (pow10 decimals), q.den⟩
  let sign := if n < 0 then "-" else ""
  let a := n.natAbs
  let ip := a / pow10 decimals
  let fp := a % pow10 decimals
  let fpStr := Nat.repr fp
  let pad := String.mk (List.replicate (decimals - fpStr.data.length) '0')
  sign ++ Nat.repr ip ++ "." ++ pad ++ fpStr

/-- Embedding of `pct_fmt` (app.py:330-331); Python formats the non-finite
floats as "nan"/"inf"/"-inf". -/
def pct_fmt (x : Option PyNum) : String :=
  match x with
  | some (PyNum.fin q) => fmtFixed 1 q ++ " %"
  | some PyNum.pinf => "inf %"
  | some PyNum.ninf => "-inf %"
  | some PyNum.nan => "nan %"
  | none => "N/A"

/-- Embedding of `nz` (app.py:333-334): only `None` becomes "N/A". -/
def nz (x : Option String) : String :=
  match x with
  | some v => v
  | none => "N/A"

/-- Embedding of the Price/Book derivation (app.py:271-277): the scraped
`pb_raw` wins; otherwise `current_price / book_value` formatted to two
decimals, guarded by `cp_num is not None and bv_num not in (None, 0)`. -/
def priceBook (pbRaw currentPrice bookValue : Option String) : Option String :=
  match pbRaw with
  | some v => some v
  | none =>
    match numOf currentPrice, numOf bookValue with
    | some c, some b => if b.isZero then none else some (fmtFixed 2 (c.div b))
    | _, _ => none

/-- C7: a directly supplied Price-to-Book value is used unchanged; otherwise,
when both current price and book value parse and the book value is non-zero,
the field is their quotient formatted to 2 decimals ("1000"/"200" gives
"5.00"); a zero or missing book value yields the "N/A" sentinel and no
division is performed. -/
theorem C7_price_book_guard (pbRaw cp bv : Option String) :
    (∀ v, pbRaw = some v → priceBook pbRaw cp bv = some v) ∧
    (pbRaw = none → ∀ c b, numOf cp = some c → numOf bv = some b →
      b.isZero = false → priceBook pbRaw cp bv = some (fmtFixed 2 (c.div b))) ∧
    (pbRaw = none → (numOf bv = none ∨ ∃ b, numOf bv = some b ∧ b.isZero = true) →
      priceBook pbRaw cp bv = none ∧ nz (priceBook pbRaw cp bv) = "N/A") ∧
    priceBook none (some "1000") (some "200") = some "5.00" ∧
    priceBook none (some "1000") (some "0") = none ∧
    nz (priceBook none (some "1000") (some "0")) = "N/A" ∧
    priceBook none (some "1000") none = none := by
  refine ⟨?_, ?_, ?_, by decide, by decide, by decide, by decide⟩
  · rintro v rfl
    rfl
  · rintro rfl c b hc hb hz
    simp [priceBook, hc, hb, hz]
  · rintro rfl hb
    have hres : priceBook none cp bv = none := by
      rcases hb with hb | ⟨b, hb, hz⟩
      · simp only [priceBook]
        rcases hcp : numOf cp with _ | c <;> simp [hb]
      · simp only [priceBook]
        rcases hcp : numOf cp with _ | c <;> simp [hb, hz]
    exact ⟨hres, by rw [hres]; rfl⟩

/-- C7 witness: the scraped value wins when present; the derived quotient at
the concrete inputs of the claim. -/
theorem C7_witness :
    priceBook (some "3.5") (some "1000") (some "200") = some "3.5" ∧
    priceBook none (some "1000") (some "200") = some "5.00" ∧
    nz (priceBook none (some "1000") (some "0")) = "N/A" :=
  ⟨(C7_price_book_guard (some "3.5") (some "1000") (some "200")).1 "3.5" rfl,
   (C7_price_book_guard none (some "1000") (some "200")).2.2.2.1,
   (C7_price_book_guard none (some "1000") (some "0")).2.2.2.2.2.1⟩

/-! ## Statement tables (`parse_pl_table` etc., app.py:514-557) and YoY

A table from `pd.read_html` is reduced to the data the code inspects: each row
is (first-column label, remaining period-column cells), all `str`-converted,
and `ncols` is the number of period columns once the first column is made the
index.  `none` in place of the table list models `pd.read_html` raising. -/

structure Table where
  rows : List (String × List String)
  ncols : Nat
deriving DecidableEq, Repr

/-- First-column values (`t.iloc[:, 0].astype(str)`). -/
def Table.firstCol (t : Table) : List String := t.rows.map Prod.fst

/-- Case-insensitive containment: pandas `str.contains(needle, case=False)` at
the literal (regex-metacharacter-free) needles the code passes. -/
def containsCI (needle cell : String) : Bool :=
  containsSub (lowerS needle) (lowerS cell)

/-- The locator predicate: the first column holds at least one cell containing
each required substring, case-insensitively (app.py:521-525). -/
def tableMatch (s1 s2 : String) (t : Table) : Bool :=
  t.firstCol.any (fun cell => containsCI s1 cell) &&
  t.firstCol.any (fun cell => containsCI s2 cell)

/-- The shared locator loop (`for t in tables: ... return t` then
`return None`). -/
def locateLoop (s1 s2 : String) : List Table → Option Table
  | [] => none
  | t :: rest => if tableMatch s1 s2 t then some t else locateLoop s1 s2 rest

/-- The locator including the `try: pd.read_html ... except: return None`. -/
def locateTable (tablesOpt : Option (List Table)) (s1 s2 : String) : Option Table :=
  match tablesOpt with
  | none => none
  | some tables => locateLoop s1 s2 tables

/-- Embedding of `parse_pl_table` (app.py:514-527). -/
def parse_pl_table (tablesOpt : Option (List Table)) : Option Table :=
  locateTable tablesOpt "Sales" "Net Profit"

/-- Embedding of `parse_bs_table` (app.py:529-542). -/
def parse_bs_table (tablesOpt : Option (List Table)) : Option Table :=
  locateTable tablesOpt "Equity Capital" "Total Assets"

/-- Embedding of `parse_cf_table` (app.py:544-557). -/
def parse_cf_table (tablesOpt : Option (List Table)) : Option Table :=
  locateTable tablesOpt "Cash from Operating Activity" "Net Cash Flow"

theorem locateLoop_eq_find (s1 s2 : String) :
    ∀ ts : List Table, locateLoop s1 s2 ts = ts.find? (tableMatch s1 s2)
  | [] => rfl
  | t :: rest => by
    by_cases h : tableMatch s1 s2 t
    · simp [locateLoop, List.find?, h]
    · simp only [locateLoop, if_neg h]
      rw [locateLoop_eq_find s1 s2 rest]
      simp [List.find?, Bool.of_not_eq_true h]

/-- Example table whose first column holds "Total Sales" and
"Net Profit After Tax". -/
def plExample : Table :=
  ⟨[("Total Sales", ["100", "110", "120"]), ("Net Profit After Tax", ["10", "11", "12"])], 3⟩

/-- C8: the statement-table locators return the first table in document order
whose first column contains, case-insensitively and as substrings, a cell
matching each required substring — a first column with "Total Sales" and
"Net Profit After Tax" satisfies ("Sales", "Net Profit") — and return null
without throwing when table parsing fails or nothing matches. -/
theorem C8_table_locator (tablesOpt : Option (List Table)) (s1 s2 : String) :
    locateTable none s1 s2 = none ∧
    (∀ tables, tablesOpt = some tables →
      locateTable tablesOpt s1 s2 = tables.find? (tableMatch s1 s2)) ∧
    parse_pl_table tablesOpt = locateTable tablesOpt "Sales" "Net Profit" ∧
    parse_bs_table tablesOpt = locateTable tablesOpt "Equity Capital" "Total Assets" ∧
    parse_cf_table tablesOpt = locateTable tablesOpt "Cash from Operating Activity" "Net Cash Flow" ∧
    tableMatch "Sales" "Net Profit" plExample = true ∧
    parse_pl_table (some [plExample]) = some plExample ∧
    parse_pl_table (some [⟨[("Revenue", ["1"])], 1⟩]) = none := by
  refine ⟨rfl, ?_, rfl, rfl, rfl, by decide, by decide, by decide⟩
  rintro tables rfl
  exact locateLoop_eq_find s1 s2 tables

/-- C8 witness: the locator equals first-match search on a concrete document
with exactly the claim's table. -/
theorem C8_witness :
    locateTable (some [plExample]) "Sales" "Net Profit"
      = [plExample].find? (tableMatch "Sales" "Net Profit") ∧
    parse_pl_table (some [plExample]) = some plExample :=
  ⟨(C8_table_locator (some [plExample]) "Sales" "Net Profit").2.1 [plExample] rfl,
   (C8_table_locator (some [plExample]) "Sales" "Net Profit").2.2.2.2.2.2.1⟩

/-- Python `str.replace(",", "")`. -/
def stripCommas (s : String) : String :=
  String.mk (s.data.filter (fun c => c != ','))

/-- Embedding of the body of the inline `yoy` closure (app.py:314-323):
`str(...).replace(",", "")`, `float(...)` under try/except, the zero guard,
then `(last/prev - 1.0) * 100.0`. -/
def yoyCells (prevCell lastCell : String) : Option PyNum :=
  match pyFloat (stripCommas prevCell), pyFloat (stripCommas lastCell) with
  | some pf, some lf =>
    if pf.isZero then none
    else some (((lf.div pf).sub (PyNum.fin ⟨1, 1⟩)).mulInt 100)
  | _, _ => none

/-- Embedding of the YoY row lookup (app.py:303-326): at least 3 period
columns required, rows indexed by line-item label, previous period =
third-from-last column, last period = second-from-last column. -/
def yoyRow (t : Table) (rowName : String) : Option PyNum :=
  if 3 ≤ t.ncols then
    match t.rows.find? (fun r => r.1 == rowName) with
    | none => none
    | some r =>
      match r.2.get? (t.ncols - 3), r.2.get? (t.ncols - 2) with
      | some p, some l => yoyCells p l
      | _, _ => none
  else none

/-- YoY from the page's tables (app.py:289-328); the located table is the one
`parse_pl_table` finds, and any parse failure yields `None`. -/
def yoyFromTables (tablesOpt : Option (List Table)) (rowName : String) : Option PyNum :=
  match locateTable tablesOpt "Sales" "Net Profit" with
  | none => none
  | some t => yoyRow t rowName

/-- P&L table whose previous-period cell is missing: pandas renders the NaN
cell as "nan" under `str(...)` before the `float` conversion. -/
def c6NanTable : Table := ⟨[("Sales", ["90", "nan", "120", "130"])], 4⟩

/-- C6 counterexample: a *missing* previous-period cell reaches the
computation as the string "nan", which Python `float()` accepts as NaN; the
zero guard does not fire, the quotient is NaN, and the reported value is
"nan %" — not the "N/A" sentinel — refuting the claim's "missing … yields
the not-available sentinel". -/
theorem C6_counterexample :
    yoyRow c6NanTable "Sales" = some PyNum.nan ∧
    pct_fmt (yoyRow c6NanTable "Sales") = "nan %" ∧
    ("nan %" : String) ≠ "N/A" := by
  refine ⟨by decide, by decide, by decide⟩

/-- C6 (amended): with previous-period value 100 and last-period value 120
the YoY value is exactly 20 and formats as "20.0 %"; a zero previous value,
a non-parsing previous or last cell, or a missing *row* yields the "N/A"
sentinel, and the computation is total, so no division-by-zero fault or
parse exception escapes; but a missing *cell* (a pandas NaN, `str`-converted
to "nan") parses as float NaN and is reported as "nan %" rather than the
sentinel. -/
theorem C6_yoy_growth (t : Table) (rowName : String) (pc lc : String) :
    (∃ q, yoyCells "100" "120" = some (PyNum.fin q) ∧ Frac.beq q ⟨20, 1⟩ = true) ∧
    pct_fmt (yoyCells "100" "120") = "20.0 %" ∧
    (∀ f, pyFloat (stripCommas pc) = some f → f.isZero = true →
      yoyCells pc lc = none ∧ pct_fmt (yoyCells pc lc) = "N/A") ∧
    (pyFloat (stripCommas pc) = none →
      yoyCells pc lc = none ∧ pct_fmt (yoyCells pc lc) = "N/A") ∧
    (pyFloat (stripCommas lc) = none →
      yoyCells pc lc = none ∧ pct_fmt (yoyCells pc lc) = "N/A") ∧
    (t.rows.find? (fun r => r.1 == rowName) = none → yoyRow t rowName = none) ∧
    (∀ lv, pyFloat (stripCommas pc) = some PyNum.nan →
      pyFloat (stripCommas lc) = some lv →
      yoyCells pc lc = some PyNum.nan ∧ pct_fmt (yoyCells pc lc) = "nan %") ∧
    pct_fmt (yoyCells "0" "120") = "N/A" := by
  refine ⟨⟨_, rfl, by decide⟩, by decide, ?_, ?_, ?_, ?_, ?_, by decide⟩
  · intro f hf hz
    have hres : yoyCells pc lc = none := by
      simp only [yoyCells, hf]
      rcases hl : pyFloat (stripCommas lc) with _ | lf <;> simp [hz]
    exact ⟨hres, by rw [hres]; rfl⟩
  · intro hf
    have hres : yoyCells pc lc = none := by
      simp only [yoyCells, hf]
    exact ⟨hres, by rw [hres]; rfl⟩
  · intro hl
    have hres : yoyCells pc lc = none := by
      simp only [yoyCells, hl]
      rcases hf : pyFloat (stripCommas pc) with _ | pf <;> simp
    exact ⟨hres, by rw [hres]; rfl⟩
  · intro hfind
    simp only [yoyRow, hfind]
    split <;> rfl
  · intro lv hf hl
    have hres : yoyCells pc lc = some PyNum.nan := by
      simp only [yoyCells, hf, hl]
      cases lv <;> rfl
    exact ⟨hres, by rw [hres]; rfl⟩

/-- C6 witness: the 100→120 instance, concrete zero-previous and non-numeric
inputs, and the concrete missing-cell ("nan") input, all through the
theorem. -/
theorem C6_witness :
    pct_fmt (yoyCells "100" "120") = "20.0 %" ∧
    yoyCells "0" "120" = none ∧
    yoyCells "n/a" "120" = none ∧
    pct_fmt (yoyCells "nan" "120") = "nan %" :=
  ⟨(C6_yoy_growth ⟨[], 0⟩ "Sales" "0" "120").2.1,
   ((C6_yoy_growth ⟨[], 0⟩ "Sales" "0" "120").2.2.1 (PyNum.fin ⟨0, 1⟩)
      (by decide) (by decide)).1,
   ((C6_yoy_growth ⟨[], 0⟩ "Sales" "n/a" "120").2.2.2.1 (by decide)).1,
   ((C6_yoy_growth ⟨[], 0⟩ "Sales" "nan" "120").2.2.2.2.2.2.1
      (PyNum.fin ⟨120, 1⟩) (by decide) (by decide)).2⟩

/-! ## The metrics extractor (`fetch_screener_metrics`, app.py:155-373)

The function is embedded with its collaborators as oracles: the outcome of
`fetch_screener_html` (already parsed into the data the code reads, or `None`),
the resolved candidate codes, `fetch_bse_metrics` and
`fetch_google_finance_metrics`. -/

/-- The partial mapping `fetch_google_finance_metrics` returns
(app.py:375-447); `none` for the whole record models a failed fetch (a
successful fetch always returns a non-empty, hence truthy, dict). -/
structure GfData where
  marketCap : Option String
  currentPrice : Option String
  peRatio : Option String
  high52 : Option String
  low52 : Option String
deriving DecidableEq, Repr

/-- The parsed primary document, reduced to what the code reads: the span
texts of each `<li>` (app.py:215-220) and the `pd.read_html` tables
(app.py:293, `none` = raised). -/
structure ScreenerDoc where
  lis : List (List String)
  tables : Option (List Table)
deriving DecidableEq, Repr

/-- The fixed label list of app.py:221-237. -/
def METRIC_LABELS : List String :=
  ["Market Cap", "Current Price", "High / Low", "High/Low", "Stock P/E", "P/E",
   "Book Value", "Dividend Yield", "ROCE", "ROCE 3Yr", "ROE", "ROE 3Yr",
   "Face Value", "Price to Book value", "Price to book"]

/-- Python dict assignment `key_vals[label] = value`: overwrite or append. -/
def kvInsert (kv : List (String × String)) (label value : String) :
    List (String × String) :=
  if kv.any (fun p => p.1 == label) then
    kv.map (fun p => if p.1 == label then (label, value) else p)
  else kv ++ [(label, value)]

/-- The key-metrics scan (app.py:214-238): list items with at least two spans
contribute (first-span, second-span) when the label is in the fixed list. -/
def buildKeyVals (lis : List (List String)) : List (String × String) :=
  lis.foldl (fun kv spans =>
    match spans with
    | label :: value :: _ =>
      if METRIC_LABELS.contains label then kvInsert kv label value else kv
    | _ => kv) []

/-- Embedding of `get_any` (app.py:240-244): first present label wins. -/
def get_any (kv : List (String × String)) : List String → Option String
  | [] => none
  | lb :: rest =>
    match kv.find? (fun p => p.1 == lb) with
    | some p => some p.2
    | none => get_any kv rest

/-- The Google Finance backfill block (app.py:257-269).  It runs when market
cap or current price is falsy; note `high_52`/`low_52` are still `None` here
(their derivation from "High / Low" happens only later, app.py:282-287). -/
def gfBackfill (gf : Option GfData) (mcap cp pe h52 l52 : Option String) :
    Option String × Option String × Option String × Option String × Option String :=
  if optFalsy mcap || optFalsy cp then
    match gf with
    | some g =>
      (if optFalsy mcap then g.marketCap else mcap,
       if optFalsy cp then g.currentPrice else cp,
       if optFalsy pe then g.peRatio else pe,
       if optFalsy h52 then g.high52 else h52,
       if optFalsy l52 then g.low52 else l52)
    | none => (mcap, cp, pe, h52, l52)
  else (mcap, cp, pe, h52, l52)

/-- Python `s.split(sep)` for a single-character separator. -/
def splitOnChar (sep : Char) : List Char → List (List Char)
  | [] => [[]]
  | c :: rest =>
    if c == sep then [] :: splitOnChar sep rest
    else
      match splitOnChar sep rest with
      | [] => [[c]]
      | g :: gs => (c :: g) :: gs

/-- `high_low.replace("₹", "")` (app.py:283). -/
def rupeeStrip (hl : String) : String :=
  String.mk (hl.data.filter (fun c => c != '₹'))

/-- The "High / Low" split (app.py:282-287): runs only when the combined entry
is truthy and `high_52` is still falsy; both halves are assigned when the
split yields exactly two parts, else the previous values stand. -/
def splitHighLow (highLow h52 l52 : Option String) : Option String × Option String :=
  if !optFalsy highLow && optFalsy h52 then
    match highLow with
    | some hl =>
      match splitOnChar '/' (rupeeStrip hl).data with
      | [a, b] => (some (trimS (String.mk a)), some (trimS (String.mk b)))
      | _ => (h52, l52)
    | none => (h52, l52)
  else (h52, l52)

/-- Metric values: display strings, or the nested `Links` dict. -/
inductive MVal where
  | s (v : String)
  | links (l : List (String × Option String))
deriving DecidableEq, Repr

/-- The external links dict (app.py:336-356). -/
def metricsLinks (codeOpt : Option String) (symbol : String) :
    List (String × Option String) :=
  [("Screener", match codeOpt with
     | some c => if c.data.isEmpty then none else some (screener_base c)
     | none => none),
   ("Google Finance", some ("https://www.google.com/finance/quote/" ++ symbol ++ ":NSE")),
   ("MoneyControl", some ("https://www.moneycontrol.com/mccode/common/autosuggest_search_link.php?search_query=" ++ symbol ++ "&classic=true"))]

/-- The primary-document branch of `fetch_screener_metrics` (app.py:211-373),
in source order: key-value scan, Google Finance backfill, Price/Book, the
"High / Low" split, YoY, then the record. -/
def metricsFromDoc (doc : ScreenerDoc) (gf : Option GfData) (codeOpt : Option String)
    (symbol : String) : List (String × MVal) :=
  let kv := buildKeyVals doc.lis
  let mcap := get_any kv ["Market Cap"]
  let currentPrice := get_any kv ["Current Price"]
  let highLow := get_any kv ["High / Low", "High/Low"]
  let pe := get_any kv ["Stock P/E", "P/E"]
  let bookValue := get_any kv ["Book Value"]
  let dy := get_any kv ["Dividend Yield"]
  let roce := get_any kv ["ROCE", "ROCE 3Yr"]
  let roe := get_any kv ["ROE", "ROE 3Yr"]
  let fv := get_any kv ["Face Value"]
  let pbRaw := get_any kv ["Price to Book value", "Price to book"]
  let h52 : Option String := none
  let l52 : Option String := none
  let (mcap, currentPrice, pe, h52, l52) := gfBackfill gf mcap currentPrice pe h52 l52
  let pb := priceBook pbRaw currentPrice bookValue
  let (h52, l52) := splitHighLow highLow h52 l52
  let yoySales := yoyFromTables doc.tables "Sales"
  let yoyProfit := yoyFromTables doc.tables "Net Profit"
  [("Market Cap", MVal.s (nz mcap)),
   ("Current Price", MVal.s (nz currentPrice)),
   ("P/E Ratio", MVal.s (nz pe)),
   ("Book Value", MVal.s (nz bookValue)),
   ("Price / Book", MVal.s (nz pb)),
   ("Dividend Yield", MVal.s (nz dy)),
   ("ROCE", MVal.s (nz roce)),
   ("ROE", MVal.s (nz roe)),
   ("Face Value", MVal.s (nz fv)),
   ("52-Week High", MVal.s (nz h52)),
   ("52-Week Low", MVal.s (nz l52)),
   ("Sales YoY %", MVal.s (pct_fmt yoySales)),
   ("Net Profit YoY %", MVal.s (pct_fmt yoyProfit)),
   ("Links", MVal.links (metricsLinks codeOpt symbol))]

/-- Python `dict.get(k, default)` on the BSE result. -/
def lookupD (l : List (String × String)) (k d : String) : String :=
  match l.find? (fun p => p.1 == k) with
  | some p => p.2
  | none => d

/-- The minimal record built from BSE fallback data (app.py:186-206). -/
def bseRecord (bd : List (String × String)) (codeOpt : Option String)
    (symbol bseCode : String) : List (String × MVal) :=
  [("Market Cap", MVal.s "N/A"),
   ("Current Price", MVal.s (lookupD bd "Current Price" "N/A")),
   ("P/E Ratio", MVal.s "N/A"),
   ("Book Value", MVal.s "N/A"),
   ("Price / Book", MVal.s "N/A"),
   ("Dividend Yield", MVal.s "N/A"),
   ("ROCE", MVal.s "N/A"),
   ("ROE", MVal.s "N/A"),
   ("Face Value", MVal.s "N/A"),
   ("52-Week High", MVal.s (lookupD bd "52-Week High" "N/A")),
   ("52-Week Low", MVal.s (lookupD bd "52-Week Low" "N/A")),
   ("Sales YoY %", MVal.s "N/A"),
   ("Net Profit YoY %", MVal.s "N/A"),
   ("Links", MVal.links
     [("Screener", match codeOpt with
        | some c => if c.data.isEmpty then none else some (screener_base c)
        | none => none),
      ("Google Finance", some ("https://www.google.com/finance/quote/" ++ symbol ++ ":NSE")),
      ("BSE", some ("https://www.bseindia.com/stock-share-price/" ++ bseCode ++ "/"))])]

/-- Truthy all-digit candidate selector (`if code and code.isdigit()`,
app.py:176-179). -/
def digitCode (c : Option String) : Option String :=
  match c with
  | some s => if isDigits s then some s else none
  | none => none

/-- Embedding of `fetch_screener_metrics` (app.py:155-373), given the fetch
outcome, the resolved codes and the two fallback oracles. -/
def fetch_screener_metrics (docOpt : Option ScreenerDoc) (codes : List (Option String))
    (bseFetch : String → Option (List (String × String))) (gf : Option GfData)
    (symbol : String) : List (String × MVal) :=
  match docOpt with
  | none =>
    match codes.findSome? digitCode with
    | some bc =>
      match bseFetch bc with
      | some bd =>
        if bd.isEmpty then []
        else bseRecord bd (ticker_to_screener_code codes) symbol bc
      | none => []
    | none => []
  | some doc => metricsFromDoc doc gf (ticker_to_screener_code codes) symbol

/-- Record lookup by metric name. -/
def mvLookup (rec : List (String × MVal)) (k : String) : Option MVal :=
  (rec.find? (fun p => p.1 == k)).map Prod.snd

theorem exists_of_findSome_eq {γ δ : Type} {f : γ → Option δ} :
    ∀ {l : List γ} {b : δ}, l.findSome? f = some b → ∃ a ∈ l, f a = some b
  | [], b => by intro h; simp [List.findSome?] at h
  | a :: l, b => by
    intro h
    rw [List.findSome?_cons] at h
    match hfa : f a with
    | some c =>
      rw [hfa] at h
      cases h
      exact ⟨a, by simp, hfa⟩
    | none =>
      rw [hfa] at h
      obtain ⟨x, hx, hfx⟩ := exists_of_findSome_eq h
      exact ⟨x, by simp [hx], hfx⟩

/-- C10: when the primary fetch yields no document, and no truthy all-digit
candidate code produces (non-empty) BSE fallback data, `fetch_screener_metrics`
returns the completely empty mapping — not a record binding every metric name
to "N/A"; only the successful BSE-fallback path produces the full
sentinel-filled 14-key record. -/
theorem C10_empty_record_on_total_failure (codes : List (Option String))
    (bseFetch : String → Option (List (String × String))) (gf : Option GfData)
    (symbol : String) :
    ((∀ c, some c ∈ codes → isDigits c = true →
        bseFetch c = none ∨ bseFetch c = some []) →
      fetch_screener_metrics none codes bseFetch gf symbol = []) ∧
    (∀ bc bd, codes.findSome? digitCode = some bc → bseFetch bc = some bd →
      bd.isEmpty = false →
      fetch_screener_metrics none codes bseFetch gf symbol
        = bseRecord bd (ticker_to_screener_code codes) symbol bc ∧
      (bseRecord bd (ticker_to_screener_code codes) symbol bc).length = 14) := by
  constructor
  · intro hbse
    match hsel : codes.findSome? digitCode with
    | none => simp [fetch_screener_metrics, hsel]
    | some bc =>
      obtain ⟨c, hc, hcd⟩ := exists_of_findSome_eq hsel
      have hdig : isDigits bc = true ∧ some bc ∈ codes := by
        match c with
        | none => simp [digitCode] at hcd
        | some s =>
          simp only [digitCode] at hcd
          by_cases hs : isDigits s = true
          · rw [if_pos hs] at hcd
            cases hcd
            exact ⟨hs, hc⟩
          · rw [if_neg hs] at hcd
            cases hcd
      rcases hbse bc hdig.2 hdig.1 with hb | hb <;>
        simp [fetch_screener_metrics, hsel, hb]
  · intro bc bd hsel hb hne
    refine ⟨?_, rfl⟩
    simp [fetch_screener_metrics, hsel, hb, hne]

/-- C10 witness: a numeric-code ticker whose BSE fetch also fails yields the
empty record; with BSE data present the 14-key sentinel record results. -/
theorem C10_witness :
    fetch_screener_metrics none [some "500325"] (fun _ => none) none "500325.BO" = [] ∧
    (fetch_screener_metrics none [some "500325"]
        (fun _ => some [("Current Price", "21.4")]) none "500325.BO").length = 14 :=
  ⟨(C10_empty_record_on_total_failure [some "500325"] (fun _ => none) none "500325.BO").1
      (fun c _ _ => Or.inl rfl),
   by
    have h := (C10_empty_record_on_total_failure [some "500325"]
      (fun _ => some [("Current Price", "21.4")]) none "500325.BO").2
      "500325" [("Current Price", "21.4")] (by decide) rfl (by decide)
    rw [h.1]
    exact h.2⟩

/-- Concrete primary document for C3: current price present, market cap
missing, and a combined "High / Low" entry that would split to "100"/"50". -/
def c3Doc : ScreenerDoc :=
  ⟨[["Current Price", "500"], ["High / Low", "100 / 50"]], none⟩

/-- Concrete Google Finance fallback data for C3. -/
def c3Gf : GfData :=
  ⟨some "5000", some "501", some "22", some "999", some "888"⟩

/-- C3 counterexample: the primary document supplies "High / Low" (whose split
yields "100"/"50"), but because market cap is missing the Google Finance
fallback runs first and fills the still-unset 52-week variables, so the
reported 52-week high/low are the fallback's "999"/"888", not the primary
document's values — while the primary current price "500" is preserved. -/
theorem C3_counterexample :
    mvLookup (metricsFromDoc c3Doc (some c3Gf) (some "TCS") "TCS.NS") "52-Week High"
      = some (MVal.s "999") ∧
    mvLookup (metricsFromDoc c3Doc (some c3Gf) (some "TCS") "TCS.NS") "52-Week Low"
      = some (MVal.s "888") ∧
    splitHighLow (some "100 / 50") none none = (some "100", some "50") ∧
    mvLookup (metricsFromDoc c3Doc (some c3Gf) (some "TCS") "TCS.NS") "Current Price"
      = some (MVal.s "500") ∧
    MVal.s "999" ≠ MVal.s "100" := by
  refine ⟨by decide, by decide, by decide, by decide, by decide⟩

/-- C3 (amended): the Google Finance fallback is consulted only when market
cap or current price is falsy, and it backfills only the still-missing fields
among market cap, current price and P/E, never overwriting a truthy primary
value of those; however the 52-week high/low variables are still unset when it
runs, so fallback-supplied 52-week values fill them first, and the primary
"High / Low" entry is split only when the fallback left the 52-week high
falsy. -/
theorem C3_backfill_amended (g : GfData) (gf : Option GfData)
    (mcap cp pe h52 l52 highLow : Option String) :
    (optFalsy mcap = false → optFalsy cp = false →
      gfBackfill gf mcap cp pe h52 l52 = (mcap, cp, pe, h52, l52)) ∧
    (optFalsy mcap = false → (gfBackfill (some g) mcap cp pe h52 l52).1 = mcap) ∧
    (optFalsy cp = false → (gfBackfill (some g) mcap cp pe h52 l52).2.1 = cp) ∧
    (optFalsy pe = false → (gfBackfill (some g) mcap cp pe h52 l52).2.2.1 = pe) ∧
    (optFalsy mcap = true →
      (gfBackfill (some g) mcap cp pe h52 l52).1 = g.marketCap ∧
      (gfBackfill (some g) mcap cp pe h52 l52).2.2.2.1
        = (if optFalsy h52 then g.high52 else h52)) ∧
    (optFalsy h52 = false → splitHighLow highLow h52 l52 = (h52, l52)) ∧
    (∀ hl a b, optFalsy h52 = true → highLow = some hl →
      optFalsy highLow = false →
      splitOnChar '/' (rupeeStrip hl).data = [a, b] →
      splitHighLow highLow h52 l52
        = (some (trimS (String.mk a)), some (trimS (String.mk b)))) := by
  refine ⟨?_, ?_, ?_, ?_, ?_, ?_, ?_⟩
  · intro h1 h2
    simp [gfBackfill, h1, h2]
  · intro h1
    simp only [gfBackfill]
    split_ifs <;> simp_all
  · intro h1
    simp only [gfBackfill]
    split_ifs <;> simp_all
  · intro h1
    simp only [gfBackfill]
    split_ifs <;> simp_all
  · intro h1
    constructor
    · simp only [gfBackfill]
      split_ifs <;> simp_all
    · simp only [gfBackfill]
      split_ifs <;> simp_all
  · intro h1
    simp [splitHighLow, h1]
  · intro hl a b h1 h2 h3 hsplit
    subst h2
    simp [splitHighLow, h1, h3, hsplit]

/-- C3 witness: with both key fields truthy the fallback changes nothing;
fallback-set 52-week values suppress the primary split; an unset 52-week high
lets the primary "High / Low" entry be split. -/
theorem C3_witness :
    gfBackfill (some c3Gf) (some "7000") (some "500") none none none
      = (some "7000", some "500", none, none, none) ∧
    splitHighLow (some "100 / 50") (some "999") (some "888")
      = (some "999", some "888") ∧
    splitHighLow (some "100 / 50") none none = (some "100", some "50") :=
  ⟨(C3_backfill_amended c3Gf (some c3Gf) (some "7000") (some "500")
      none none none none).1 rfl rfl,
   (C3_backfill_amended c3Gf (some c3Gf) (some "7000") (some "500")
      none (some "999") (some "888") (some "100 / 50")).2.2.2.2.2.1 rfl,
   by
    have h3 := (C3_backfill_amended c3Gf (some c3Gf) (some "7000") (some "500")
      none none none (some "100 / 50")).2.2.2.2.2.2
      "100 / 50" ("100 ".data) (" 50".data) rfl rfl rfl (by decide)
    rw [h3]
    decide⟩

/-! ## Announcements (`parse_announcements`, app.py:574-639) -/

/-- A hyperlink inside a list item: its visible text
(`a.get_text(" ", strip=True)`) and its `href` attribute. -/
structure AnnLink where
  text : String
  href : Option String
deriving DecidableEq, Repr

/-- A list item of the scanned section: its first `<a>` descendant (if any)
and its full text (`li.get_text(" ", strip=True)`). -/
structure AnnLi where
  linkA : Option AnnLink
  fullText : String
deriving DecidableEq, Repr

/-- The document reduced to what the locator inspects: `h2`/`h3` headings
(heading text paired with the list items of the heading's parent) and `<ul>`
elements (joined class string paired with their list items), each in document
order. -/
structure AnnDoc where
  headings : List (String × List AnnLi)
  uls : List (String × List AnnLi)
deriving DecidableEq, Repr

/-- Match of the regex `\s+-\s+` at the current position. -/
def matchDashAt (cs : List Char) : Option (List Char) :=
  let ws := cs.takeWhile Char.isWhitespace
  let rest := cs.dropWhile Char.isWhitespace
  if ws.isEmpty then none
  else
    match rest with
    | '-' :: r2 =>
      let ws2 := r2.takeWhile Char.isWhitespace
      if ws2.isEmpty then none else some (r2.dropWhile Char.isWhitespace)
    | _ => none

/-- `re.split(r"\s+-\s+", s, maxsplit=1)`: split at the leftmost match. -/
def splitDashOnce : List Char → Option (List Char × List Char)
  | [] => none
  | c :: rest =>
    match matchDashAt (c :: rest) with
    | some tail => some ([], tail)
    | none =>
      match splitDashOnce rest with
      | some (a, b) => some (c :: a, b)
      | none => none

/-- Fuel-driven scan of Python `hay.replace(needle, "")` (non-overlapping,
left to right); the fuel `hay.length` always suffices. -/
def removeOccAux (needle : List Char) : Nat → List Char → List Char
  | 0, hay => hay
  | _ + 1, [] => []
  | fuel + 1, c :: rest =>
    if startsL needle (c :: rest) then
      removeOccAux needle fuel ((c :: rest).drop needle.length)
    else c :: removeOccAux needle fuel rest

/-- Python `hay.replace(needle, "")`; an empty needle leaves `hay` as is. -/
def removeAll (hay needle : String) : String :=
  if needle.data.isEmpty then hay
  else String.mk (removeOccAux needle.data hay.data.length hay.data)

/-- Python `sep.join(parts)`. -/
def joinSep (sep : String) : List String → String
  | [] => ""
  | [x] => x
  | x :: rest => x ++ sep ++ joinSep sep rest

/-- An extracted announcement. -/
structure AnnItem where
  title : String
  detail : String
  url : Option String
deriving DecidableEq, Repr

/-- Per-item extraction (app.py:602-637): items without a hyperlink are
skipped; the link text splits at the first `\s+-\s+` into a short title and
a remainder; the full item text with the link text removed joins the remainder
into the detail line; relative hrefs get the site prefix. -/
def annItemOf (li : AnnLi) : Option AnnItem :=
  match li.linkA with
  | none => none
  | some a =>
    let rawTitle := a.text
    let (shortTitle, restInTitle) :=
      match splitDashOnce rawTitle.data with
      | some (x, y) => (trimS (String.mk x), trimS (String.mk y))
      | none => (trimS rawTitle, "")
    let afterText := trimS (removeAll li.fullText rawTitle)
    let detailParts := [restInTitle, afterText].filter (fun p => !p.data.isEmpty)
    let detail := joinSep " - " detailParts
    let href :=
      match a.href with
      | some h =>
        if !h.data.isEmpty && !startsL "http".data h.data then
          some ("https://www.screener.in" ++ h)
        else some h
      | none => none
    some ⟨shortTitle, detail, href⟩

/-- Embedding of `parse_announcements` (app.py:574-639): scan root from the
first heading containing "announcement" (case-insensitively), else from the
first `<ul>` whose class mentions it; no root means an empty result; within
the root, `find_all("li", limit=max_items)` takes the first `max_items` list
items — except that BeautifulSoup treats a falsy limit (0) as *no limit* —
and those with a hyperlink become items.  (`max_items` is modelled as a
natural number; the dashboard always passes 5.) -/
def parse_announcements (doc : AnnDoc) (maxItems : Nat) : List AnnItem :=
  let annSection : Option (List AnnLi) :=
    match doc.headings.find? (fun (hp : String × List AnnLi) =>
        containsSub "announcement" (lowerS hp.1)) with
    | some hp => some hp.2
    | none =>
      match doc.uls.find? (fun (up : String × List AnnLi) =>
          containsSub "announcement" (lowerS up.1)) with
      | some up => some up.2
      | none => none
  match annSection with
  | none => []
  | some lis =>
    (if maxItems = 0 then lis else lis.take maxItems).filterMap annItemOf

/-- Announcements section with 20 list items, each holding a hyperlink. -/
def annDoc20 : AnnDoc :=
  ⟨[("Announcements",
     (List.range 20).map (fun i =>
       ⟨some ⟨"Item " ++ Nat.repr i ++ " - 1 Aug", some "/doc"⟩,
        "Item " ++ Nat.repr i ++ " - 1 Aug"⟩))], []⟩

/-- C9 counterexample: at `max_items = 0` BeautifulSoup's `find_all` treats
the limit as "no limit" (`if limit and len(results) >= limit: break`), so the
20-item section yields all 20 items — more than `max_items` — refuting the
claim's "for every max_items bound … never more than max_items items". -/
theorem C9_counterexample :
    (parse_announcements annDoc20 0).length = 20 ∧ ¬((20 : Nat) ≤ 0) := by
  refine ⟨by decide, by decide⟩

/-- C9 (amended): for every *positive* `maxItems` the extractor returns at
most `maxItems` items (in document order, items being list items that contain
a hyperlink); at `maxItems = 0` the underlying `find_all` treats the limit as
"no limit" and every link item of the section is returned; the empty list —
not an error — results when neither a heading containing "announcement" nor a
list element whose class mentions "announcement" is found, and the located
heading's parent is the scan root when one matches. -/
theorem C9_announcements_bounded (doc : AnnDoc) (maxItems : Nat) :
    (0 < maxItems → (parse_announcements doc maxItems).length ≤ maxItems) ∧
    (doc.headings.find? (fun hp => containsSub "announcement" (lowerS hp.1)) = none →
      doc.uls.find? (fun up => containsSub "announcement" (lowerS up.1)) = none →
      parse_announcements doc maxItems = []) ∧
    (∀ hp, doc.headings.find? (fun hp2 => containsSub "announcement" (lowerS hp2.1)) = some hp →
      parse_announcements doc maxItems
        = (if maxItems = 0 then hp.2 else hp.2.take maxItems).filterMap annItemOf) ∧
    (∀ hp, doc.headings.find? (fun hp2 => containsSub "announcement" (lowerS hp2.1)) = some hp →
      maxItems = 0 →
      parse_announcements doc maxItems = hp.2.filterMap annItemOf) := by
  refine ⟨?_, ?_, ?_, ?_⟩
  · intro hpos
    have hne : ¬ maxItems = 0 := by omega
    simp only [parse_announcements]
    rcases hh : doc.headings.find? (fun q => containsSub "announcement" (lowerS q.1)) with
      _ | fh
    · rcases hu : doc.uls.find? (fun q => containsSub "announcement" (lowerS q.1)) with
        _ | fu
      · simp [hh, hu]
      · simp only [hh, hu, if_neg hne]
        exact Nat.le_trans (List.length_filterMap_le _ _) (List.length_take_le _ _)
    · simp only [hh, if_neg hne]
      exact Nat.le_trans (List.length_filterMap_le _ _) (List.length_take_le _ _)
  · intro hh hu
    simp [parse_announcements, hh, hu]
  · intro hp hh
    simp [parse_announcements, hh]
  · intro hp hh h0
    simp [parse_announcements, hh, h0]

/-- C9 witness: a document with no announcements section yields `[]`; the
20-item section capped at the dashboard's `max_items = 5` yields at most
(here exactly) 5 items; and at the falsy bound 0 all 20 come back. -/
theorem C9_witness :
    parse_announcements ⟨[], []⟩ 5 = [] ∧
    (parse_announcements annDoc20 5).length ≤ 5 ∧
    (annDoc20.headings.headD ("", [])).2.length = 20 ∧
    (parse_announcements annDoc20 5).length = 5 ∧
    parse_announcements annDoc20 0
      = (annDoc20.headings.headD ("", [])).2.filterMap annItemOf :=
  ⟨(C9_announcements_bounded ⟨[], []⟩ 5).2.1 rfl rfl,
   (C9_announcements_bounded annDoc20 5).1 (by decide),
   by decide,
   by decide,
   (C9_announcements_bounded annDoc20 0).2.2.2 ("Announcements",
      (List.range 20).map (fun i =>
        ⟨some ⟨"Item " ++ Nat.repr i ++ " - 1 Aug", some "/doc"⟩,
         "Item " ++ Nat.repr i ++ " - 1 Aug"⟩)) (by decide) rfl⟩

end StockApp
